import Mathlib

/-!
Verification of the LPDDR4 PHY core (litedram/phy/lpddr4/basephy.py).

The development embeds the latency and phase arithmetic performed by
LPDDR4PHY.__init__, the timing table lookup, the command arbiter, the
strobe framing logic and the read control path.  Components whose code
lives outside basephy.py (ConstBitSlip, BitSlip, TappedDelayLine,
get_sys_latency, get_sys_phase) are modelled from the specification, as
indicated in their doc comments.
-/

/-- The Latency value type of basephy.py: a duration split into whole
sys-clock cycles and leftover sys8x fast ticks.  The constructor
normalizes by carrying sys8x overflow into sys (sys + sys8x // 8,
sys8x % 8). -/
structure Latency where
  sys : ℕ
  sys8x : ℕ
  deriving Repr, DecidableEq

/-- Normalizing constructor of Latency, mirroring Latency.__init__. -/
def Latency.make (sys sys8x : ℕ) : Latency :=
  ⟨sys + sys8x / 8, sys8x % 8⟩

/-- Latency.__add__: component-wise sum renormalized through the
constructor. -/
def Latency.add (a b : Latency) : Latency :=
  Latency.make (a.sys + b.sys) (a.sys8x + b.sys8x)

/-- Total duration of a Latency measured in fast ticks. -/
def Latency.total (a : Latency) : ℕ := 8 * a.sys + a.sys8x

/-- The static frequency table of get_cl_cw (MT53E256M16D1, no DBI,
Set A): ascending frequencies paired with (CL, CWL). -/
def f_to_cl_cwl : List (ℚ × (ℕ × ℕ)) :=
  [ ( 532000000, ( 6,  4)),
    (1066000000, (10,  6)),
    (1600000000, (14,  8)),
    (2132000000, (20, 10)),
    (2666000000, (24, 12)),
    (3200000000, (28, 14)),
    (3732000000, (32, 16)),
    (4266000000, (36, 18)) ]

/-- get_cl_cw of basephy.py: returns the (CL, CWL) of the first table
entry whose period threshold 2/f is reached by the requested clock
period, or none (the Python code raises ValueError). -/
def get_cl_cw (tck : ℚ) : Option (ℕ × ℕ) :=
  (f_to_cl_cwl.find? (fun e => 2 / e.1 ≤ tck)).map Prod.snd

/-- Modelled from the spec: get_sys_latency (imported from
litedram.common, not under src/) converts a fast-tick count into a
whole-slow-cycle latency by dividing by the ratio with ceiling
alignment. -/
def get_sys_latency (nphases cas : ℕ) : ℕ :=
  (cas + (nphases - 1)) / nphases

/-- Modelled from the spec: get_sys_phase (imported from
litedram.common, not under src/) measures the remainder phase back from
the resolved whole-cycle latency; the result may be negative, in which
case the caller borrows extra slow cycles. -/
def get_sys_phase (nphases sys_latency cas : ℕ) : ℤ :=
  (sys_latency : ℤ) * nphases - cas

/-- The phase-normalization loop of basephy.py (updated_latency): while
the phase is negative, add nphases = 8 to it and increment the sys
latency by one. -/
def updated_latency (phase sys_latency : ℤ) : ℤ × ℤ :=
  if phase < 0 then updated_latency (phase + 8) (sys_latency + 1)
  else (phase, sys_latency)
termination_by (-phase).toNat
decreasing_by
  simp_wf
  omega

/-- Construction-time fatal errors of LPDDR4PHY.__init__: the ValueError
raised by get_cl_cw when no table entry matches, and the failed
assertion wrtap >= 0. -/
inductive PhyError where
  | UnsupportedTiming
  | NegativeTapIndex
  deriving Repr, DecidableEq

/-- The timing-derived values fixed by LPDDR4PHY.__init__: resolved CL
and CWL, normalized whole-cycle latencies and phases, the total read and
write latencies and the write tap index. -/
structure PhySettingsM where
  cl : ℕ
  cwl : ℕ
  cl_sys_latency : ℤ
  cwl_sys_latency : ℤ
  rdphase : ℤ
  wrphase : ℤ
  read_latency : ℤ
  write_latency : ℤ
  wrtap : ℤ
  deriving Repr, DecidableEq

/-- Fixed constants of basephy.py: bitslip latency, command length on
the bus, and the ConstBitSlip delay on the command path. -/
def bitslip_cycles : ℕ := 1

/-- Commands are sent over 4 DRAM clocks and CL and CWL are counted from
the last bit (basephy.py line 83). -/
def cmd_latency : ℕ := 4

/-- Commands read from adapters are delayed by one cycle on
ConstBitSlips (basephy.py line 85). -/
def ca_latency : ℕ := 1

/-- The latency and phase computation of LPDDR4PHY.__init__ (basephy.py
lines 87-111 and 318-319) after CL and CWL have been resolved:
whole-cycle latencies and phases are computed and normalized, the total
read and write latencies are assembled, and construction fails with
NegativeTapIndex when the wrtap assertion at line 319 would fail.  The
get_sys_latency and get_sys_phase helpers are modelled from the spec,
everything else follows basephy.py. -/
def lpddr4_phy_init_resolved (cl cwl : ℕ) (ser_latency des_latency : Latency) :
    Except PhyError PhySettingsM :=
  let cl_sys_latency0 : ℕ := get_sys_latency 8 cl
  let cwl_sys_latency0 : ℕ := get_sys_latency 8 cwl
  let rdphase0 : ℤ :=
    get_sys_phase 8 cl_sys_latency0
      (cl + cmd_latency + ser_latency.sys8x + des_latency.sys8x)
  let wrphase0 : ℤ := get_sys_phase 8 cwl_sys_latency0 (cwl + cmd_latency)
  let wr := updated_latency wrphase0 cwl_sys_latency0
  let rd := updated_latency rdphase0 cl_sys_latency0
  let read_data_delay : ℤ := ca_latency + ser_latency.sys + rd.2
  let read_des_delay : ℤ := des_latency.sys + bitslip_cycles
  let read_latency : ℤ := read_data_delay + read_des_delay
  let write_latency : ℤ := wr.2
  let wrtap : ℤ := wr.2 - 1
  if wrtap < 0 then .error .NegativeTapIndex
  else .ok ⟨cl, cwl, rd.2, wr.2, rd.1, wr.1, read_latency, write_latency, wrtap⟩

/-- Entry point of the modelled construction: tck = 1/(nphases *
sys_clk_freq) as at basephy.py line 60, then the table lookup (a
ValueError becomes UnsupportedTiming) followed by the latency
computation. -/
def lpddr4_phy_init (sys_clk_freq : ℚ) (ser_latency des_latency : Latency) :
    Except PhyError PhySettingsM :=
  match get_cl_cw (1 / (8 * sys_clk_freq)) with
  | none => .error .UnsupportedTiming
  | some (cl, cwl) => lpddr4_phy_init_resolved cl cwl ser_latency des_latency

/-- Modelled from the spec: TappedDelayLine (imported from
litedram.common, not under src/).  Signals are modelled as functions
from tick number to value; the tap at index k at tick n carries the
input value from exactly k + 1 ticks ago, and false before the line has
filled. -/
def tap (input : ℕ → Bool) (k n : ℕ) : Bool :=
  if k + 1 ≤ n then input (n - (k + 1)) else false

/-- The wrdata_en_tap helper of basephy.py (lines 337-338): tap index -1
denotes the undelayed input, which allows wrtap = 0. -/
def wrdata_en_tap (input : ℕ → Bool) (i : ℤ) (n : ℕ) : Bool :=
  if i = -1 then input n else tap input i.toNat n

/-- dq_oe of basephy.py line 329: the wrdata_en delay-line tap at index
wrtap. -/
def dq_oe (input : ℕ → Bool) (wrtap n : ℕ) : Bool := tap input wrtap n

/-- dqs_preamble of basephy.py line 339: tap wrtap - 1 and not tap
wrtap. -/
def dqs_preamble (input : ℕ → Bool) (wrtap n : ℕ) : Bool :=
  wrdata_en_tap input ((wrtap : ℤ) - 1) n && !(wrdata_en_tap input (wrtap : ℤ) n)

/-- dqs_postamble of basephy.py line 340: tap wrtap + 1 and not tap
wrtap. -/
def dqs_postamble (input : ℕ → Bool) (wrtap n : ℕ) : Bool :=
  wrdata_en_tap input ((wrtap : ℤ) + 1) n && !(wrdata_en_tap input (wrtap : ℤ) n)

/-- dqs_oe of basephy.py line 331: always enabled in write leveling
mode, else during preamble, transfer or postamble. -/
def dqs_oe (wlevel_en : Bool) (input : ℕ → Bool) (wrtap n : ℕ) : Bool :=
  wlevel_en || (dqs_preamble input wrtap n || dq_oe input wrtap n ||
    dqs_postamble input wrtap n)

/-- The ORed rddata_en signal across the 8 DFI phases (basephy.py line
307). -/
def rddata_en_or (en : ℕ → ℕ → Bool) (n : ℕ) : Bool :=
  (List.range 8).any fun p => en p n

/-- rddata_valid of basephy.py lines 306-315: the ORed rddata_en fed
through a TappedDelayLine with read_latency taps (its output is the
oldest tap, hence a delay of exactly read_latency ticks), ORed with the
write-leveling enable register.  Every DFI phase receives this same
value.  The TappedDelayLine is modelled from the spec. -/
def rddata_valid (wlevel_en : Bool) (en : ℕ → ℕ → Bool)
    (read_latency n : ℕ) : Bool :=
  tap (rddata_en_or en) (read_latency - 1) n || wlevel_en

/-- Modelled from the spec: the Bit Lane Transcoder (BitSlip, imported
from litedram.common, not under src/) with cycles = 1 keeps a buffer of
the 2W most recently seen input bits (the previous tick and the current
tick W-bit words) and outputs the W contiguous buffer bits starting at
offset S, counted from the oldest end.  Bit j of the output word at tick
n is therefore buffer bit S + j, where buffer bits below W come from the
previous tick word (false at tick 0) and buffer bits at W and above come
from the current tick word. -/
def bitslipOut (W S : ℕ) (input : ℕ → ℕ → Bool) (n j : ℕ) : Bool :=
  if S + j < W then (if n = 0 then false else input (n - 1) (S + j))
  else input n (S + j - W)

/-- The inverse rotation for bitslipOut: the inbound stage rotation that
undoes an outbound rotation by S. -/
def bitslipInv (W S : ℕ) : ℕ := (W - S) % W

/-- The 16-bit validity history register of the arbiter (basephy.py
lines 179-182).  The adapters valid bits are fed into a ConstBitSlip
with dw = 8 and cycles = 1 whose register r holds, at sys cycle c, the
valid word of cycle c - 2 in its low 8 bits and the valid word of cycle
c - 1 in its high 8 bits (zero before those cycles exist, and for
indices at 16 and above).  The ConstBitSlip itself is not under src/ and
its register is modelled from the spec description of the rolling
history. -/
def valids_r (valid : ℕ → ℕ → Bool) (c k : ℕ) : Bool :=
  if k < 8 then (if 2 ≤ c then valid (c - 2) k else false)
  else if k < 16 then (if 1 ≤ c then valid (c - 1) (k - 8) else false)
  else false

/-- The masked validity history of basephy.py lines 183-187: bit i of
valids_hist is the raw history bit i with any bit suppressed when one of
the up to 3 preceding MASKED history bits (indices max(0, i-3) to i-1)
is set.  The recursion matches the combinational definition in the
source, which truncates the lookback window at index 0 of the 16-bit
vector. -/
def valids_hist (valid : ℕ → ℕ → Bool) (c : ℕ) : ℕ → Bool
  | 0 => valids_r valid c 0
  | 1 => valids_r valid c 1 && !(valids_hist valid c 0)
  | 2 => valids_r valid c 2 && !(valids_hist valid c 1 || valids_hist valid c 0)
  | (k + 3) => valids_r valid c (k + 3) &&
      !(valids_hist valid c (k + 2) || valids_hist valid c (k + 1) ||
        valids_hist valid c k)

/-- The allowed condition of basephy.py line 193: the signals from the
adapter of a phase may be used only when no masked validity bit is set
in the 3 history slots immediately preceding its own emission slot
(indices nphases + phase - 3 to nphases + phase - 1). -/
def allowed (valid : ℕ → ℕ → Bool) (c p : ℕ) : Bool :=
  !(valids_hist valid c (5 + p) || valids_hist valid c (6 + p) ||
    valids_hist valid c (7 + p))

/-- Modelled from the spec: the output of a ConstBitSlip with dw = 8 and
cycles = 1 used on the command path (basephy.py lines 196-212; the
ConstBitSlip class itself is not under src/).  The payload word of a
source is rotated by slp positions to align it to its intended absolute
tick offset and delayed by one sys cycle (ca_latency): output bit t at
cycle c is payload bit t - slp of cycle c - 1 when t is at least slp,
and the spilled payload bit t + 8 - slp of cycle c - 2 otherwise (zero
before those cycles exist). -/
def constBitSlip (slp : ℕ) (payload : ℕ → ℕ → Bool) (c t : ℕ) : Bool :=
  if slp ≤ t then (if 1 ≤ c then payload (c - 1) (t - slp) else false)
  else (if 2 ≤ c then payload (c - 2) (t + 8 - slp) else false)

/-- The masked contribution of one phase to a command lane (basephy.py
lines 199-200 and 210-211): the rotated payload ANDed with the
replicated allowed bit of that phase. -/
def cmd_contrib (valid : ℕ → ℕ → Bool) (payload : ℕ → ℕ → Bool)
    (p c t : ℕ) : Bool :=
  constBitSlip p payload c t && allowed valid c p

/-- The ORed command lane output of basephy.py lines 214-217: the
bitwise OR of the 8 masked per-phase contributions.  Instantiated with
the cs payloads it models out.cs, and with the per-bit ca payloads it
models each of the 6 out.ca bit lanes. -/
def cmd_out (valid : ℕ → ℕ → Bool) (payload : ℕ → ℕ → ℕ → Bool)
    (c t : ℕ) : Bool :=
  (List.range 8).any fun p => cmd_contrib valid (payload p) p c t

/-- Concrete arbiter input used in counterexamples and witnesses: phases
5 and 6 both carry a command at sys cycle 0. -/
def exValid56 : ℕ → ℕ → Bool := fun c p => decide (c = 0 ∧ (p = 5 ∨ p = 6))

/-- Concrete 4-tick payload used in counterexamples and witnesses: all
four command ticks are set at sys cycle 0. -/
def exPayload0 : ℕ → ℕ → Bool := fun c t => decide (c = 0 ∧ t < 4)


/-! ### Helper lemmas -/

lemma Latency.make_total (s t : ℕ) : (Latency.make s t).total = 8 * s + t := by
  simp only [Latency.make, Latency.total]
  omega

lemma Latency.make_sys8x_lt (s t : ℕ) : (Latency.make s t).sys8x < 8 := by
  simp only [Latency.make]
  omega

lemma Latency.add_total (a b : Latency) :
    (a.add b).total = a.total + b.total := by
  rw [Latency.add, Latency.make_total]
  simp only [Latency.total]
  omega

lemma Latency.eq_of_total_eq (a b : Latency) (ha : a.sys8x < 8)
    (hb : b.sys8x < 8) (h : a.total = b.total) : a = b := by
  cases a
  cases b
  simp only [Latency.total] at h ha hb
  simp only [Latency.mk.injEq]
  omega

/-- C7: Latency addition is associative and commutative, and every
Latency value built by the constructor or by addition is canonical: its
fast-tick component sys8x lies below the ratio 8, with overflow carried
into the slow-cycle component. -/
theorem latency_algebra :
    (∀ a b c : Latency, (a.add b).add c = a.add (b.add c)) ∧
    (∀ a b : Latency, a.add b = b.add a) ∧
    (∀ s t : ℕ, (Latency.make s t).sys8x < 8) ∧
    (∀ a b : Latency, (a.add b).sys8x < 8) := by
  have hcanon : ∀ a b : Latency, (a.add b).sys8x < 8 := by
    intro a b
    simp only [Latency.add]
    exact Latency.make_sys8x_lt _ _
  refine ⟨?_, ?_, Latency.make_sys8x_lt, hcanon⟩
  · intro a b c
    apply Latency.eq_of_total_eq _ _ (hcanon _ _) (hcanon _ _)
    simp only [Latency.add_total]
    omega
  · intro a b
    apply Latency.eq_of_total_eq _ _ (hcanon _ _) (hcanon _ _)
    simp only [Latency.add_total]
    omega

/-- C10: with write leveling enabled every DFI phase reports read data
valid on every controller cycle; with write leveling disabled the
rddata_valid output equals the ORed rddata_en of all phases delayed by
exactly read_latency cycles. -/
theorem wlevel_forces_read_valid (wl : Bool) (en : ℕ → ℕ → Bool)
    (read_latency : ℕ) (hL : 1 ≤ read_latency) (n : ℕ) :
    (wl = true → rddata_valid wl en read_latency n = true) ∧
    (wl = false → rddata_valid wl en read_latency n =
      if read_latency ≤ n then rddata_en_or en (n - read_latency)
      else false) := by
  constructor
  · intro h
    simp [rddata_valid, h]
  · intro h
    subst h
    have hidx : read_latency - 1 + 1 = read_latency := by omega
    simp only [rddata_valid, tap, hidx, Bool.or_false]

/-- Witness for C10 at a concrete input: a read enable on phase 0 at
cycle 0 with read latency 2 makes rddata_valid at cycle 2 equal the
delayed enable, and write leveling forces validity at cycle 0. -/
theorem wlevel_forces_read_valid_witness :
    (rddata_valid false (fun p n => decide (p = 0 ∧ n = 0)) 2 2 =
      if 2 ≤ 2 then rddata_en_or (fun p n => decide (p = 0 ∧ n = 0)) 0
      else false) ∧
    rddata_valid true (fun p n => decide (p = 0 ∧ n = 0)) 2 0 = true := by
  constructor
  · exact (wlevel_forces_read_valid false (fun p n => decide (p = 0 ∧ n = 0))
      2 (by decide) 2).2 rfl
  · exact (wlevel_forces_read_valid true (fun p n => decide (p = 0 ∧ n = 0))
      2 (by decide) 0).1 rfl

lemma decide_and_not_decide {P Q R : Prop} [Decidable P] [Decidable Q]
    [Decidable R] (h : R ↔ P ∧ ¬Q) : (decide P && !decide Q) = decide R := by
  by_cases hP : P <;> by_cases hQ : Q <;> simp [hP, hQ, h]

/-- C6: for a write-data-enable pulse lasting exactly 1 tick (at tick
t0) and write leveling off, dqs_preamble asserts for exactly the 1 tick
before the data output enable, dq_oe asserts for exactly one tick (the
pulse delayed through the wrtap tap of the delay line), dqs_postamble
asserts for exactly the 1 tick after, and no two of the three are ever
asserted together. -/
theorem strobe_framing (input : ℕ → Bool) (t0 wrtap : ℕ)
    (hpulse : ∀ n, input n = decide (n = t0)) (n : ℕ) :
    dqs_preamble input wrtap n = decide (n = t0 + wrtap) ∧
    dq_oe input wrtap n = decide (n = t0 + wrtap + 1) ∧
    dqs_postamble input wrtap n = decide (n = t0 + wrtap + 2) ∧
    ¬(dqs_preamble input wrtap n = true ∧ dq_oe input wrtap n = true) ∧
    ¬(dq_oe input wrtap n = true ∧ dqs_postamble input wrtap n = true) ∧
    ¬(dqs_preamble input wrtap n = true ∧ dqs_postamble input wrtap n = true) := by
  have htap : ∀ k m : ℕ, tap input k m = decide (m = t0 + k + 1) := by
    intro k m
    simp only [tap, hpulse]
    split_ifs with h
    · simp only [decide_eq_decide]
      omega
    · symm
      simp only [decide_eq_false_iff_not]
      omega
  have hwet : ∀ (i : ℤ) (m : ℕ), -1 ≤ i →
      wrdata_en_tap input i m = decide ((m : ℤ) = t0 + i + 1) := by
    intro i m hi
    simp only [wrdata_en_tap]
    split_ifs with h
    · subst h
      rw [hpulse]
      simp only [decide_eq_decide]
      omega
    · rw [htap]
      simp only [decide_eq_decide]
      omega
  have hoe : dq_oe input wrtap n = decide (n = t0 + wrtap + 1) := by
    rw [dq_oe, htap]
  have hpre : dqs_preamble input wrtap n = decide (n = t0 + wrtap) := by
    rw [dqs_preamble, hwet _ _ (by omega), hwet _ _ (by omega)]
    exact decide_and_not_decide (by omega)
  have hpost : dqs_postamble input wrtap n = decide (n = t0 + wrtap + 2) := by
    rw [dqs_postamble, hwet _ _ (by omega), hwet _ _ (by omega)]
    exact decide_and_not_decide (by omega)
  refine ⟨hpre, hoe, hpost, ?_, ?_, ?_⟩ <;>
    simp only [hpre, hoe, hpost, decide_eq_true_eq] <;> omega

/-- Witness for C6 at a concrete input: a 1-tick pulse at tick 2 with
wrtap = 1 produces preamble at tick 3, output enable at tick 4 and
postamble at tick 5. -/
theorem strobe_framing_witness :
    dqs_preamble (fun n => decide (n = 2)) 1 3 = true ∧
    dq_oe (fun n => decide (n = 2)) 1 4 = true ∧
    dqs_postamble (fun n => decide (n = 2)) 1 5 = true := by
  have h3 := strobe_framing (fun n => decide (n = 2)) 2 1 (fun n => rfl) 3
  have h4 := strobe_framing (fun n => decide (n = 2)) 2 1 (fun n => rfl) 4
  have h5 := strobe_framing (fun n => decide (n = 2)) 2 1 (fun n => rfl) 5
  refine ⟨?_, ?_, ?_⟩
  · rw [h3.1]
    decide
  · rw [h4.2.1]
    decide
  · rw [h5.2.2.1]
    decide

/-- Concrete deterministic W-bit pattern stream used by the bitslip
witness. -/
def exPattern : ℕ → ℕ → Bool := fun n j => decide ((n * 16 + j) % 5 = 0)

/-- C2: feeding any W-bit pattern stream through an outbound bitslip
with rotation S (cycles = 1) and then through an inbound bitslip with
the inverse rotation yields the original stream delayed by exactly
bitslip_cycles or bitslip_cycles + 1 whole ticks, never fewer and never
more: before the delay has elapsed the output is the cleared buffer
content, and afterwards it is exactly the input d ticks ago. -/
theorem bitslip_round_trip (W S : ℕ) (input : ℕ → ℕ → Bool)
    (hW : 0 < W) (hS : S < W) :
    ∃ d : ℕ, (d = bitslip_cycles ∨ d = bitslip_cycles + 1) ∧
      ∀ n j : ℕ, j < W →
        bitslipOut W (bitslipInv W S) (bitslipOut W S input) n j =
          if d ≤ n then input (n - d) j else false := by
  by_cases hS0 : S = 0
  · subst hS0
    refine ⟨2, Or.inr (by simp [bitslip_cycles]), ?_⟩
    intro n j hj
    have hinv : bitslipInv W 0 = 0 := by
      simp [bitslipInv, Nat.mod_self]
    rw [hinv]
    simp only [bitslipOut, Nat.zero_add]
    rw [if_pos hj, if_pos hj]
    rcases n with _ | m
    · simp
    · simp only [Nat.succ_ne_zero, if_false, Nat.succ_sub_one]
      rcases m with _ | m2
      · simp
      · simp only [Nat.succ_ne_zero, if_false, Nat.succ_sub_one]
        have h2 : 2 ≤ m2 + 1 + 1 := by omega
        rw [if_pos h2]
        have hidx : m2 + 1 + 1 - 2 = m2 := by omega
        rw [hidx]
  · refine ⟨1, Or.inl (by simp [bitslip_cycles]), ?_⟩
    intro n j hj
    have hinv : bitslipInv W S = W - S := by
      rw [bitslipInv, Nat.mod_eq_of_lt (by omega)]
    rw [hinv]
    by_cases hjS : j < S
    · -- the inbound stage reads the buffered previous output word
      have hc1 : W - S + j < W := by omega
      simp only [bitslipOut, if_pos hc1]
      have hc2 : ¬(S + (W - S + j) < W) := by omega
      rw [if_neg hc2]
      have hidx : S + (W - S + j) - W = j := by omega
      rw [hidx]
      rcases n with _ | m
      · simp
      · have h1 : (1 : ℕ) ≤ m + 1 := by omega
        simp only [Nat.succ_ne_zero, if_false, Nat.succ_sub_one, if_pos h1]
    · -- the inbound stage reads the current output word
      have hc1 : ¬(W - S + j < W) := by omega
      simp only [bitslipOut, if_neg hc1]
      have hidx : W - S + j - W = j - S := by omega
      rw [hidx]
      have hc2 : S + (j - S) < W := by omega
      rw [if_pos hc2]
      have hidx2 : S + (j - S) = j := by omega
      rw [hidx2]
      rcases n with _ | m
      · simp
      · have h1 : (1 : ℕ) ≤ m + 1 := by omega
        simp only [Nat.succ_ne_zero, if_false, Nat.succ_sub_one, if_pos h1]

/-- Witness for C2 at a concrete rotation: W = 16, S = 3 and a
deterministic pattern stream. -/
theorem bitslip_round_trip_witness :
    ∃ d : ℕ, (d = bitslip_cycles ∨ d = bitslip_cycles + 1) ∧
      ∀ n j : ℕ, j < 16 →
        bitslipOut 16 (bitslipInv 16 3) (bitslipOut 16 3 exPattern) n j =
          if d ≤ n then exPattern (n - d) j else false :=
  bitslip_round_trip 16 3 exPattern (by decide) (by decide)

/-- Accessor for the i-th entry of the frequency table in its source
order (ascending frequency). -/
def table_entry (i : Fin 8) : ℚ × (ℕ × ℕ) :=
  f_to_cl_cwl.get (Fin.cast (by rfl) i)

lemma get_cl_cw_ite (tck : ℚ) :
    get_cl_cw tck =
      if 2 / 532000000 ≤ tck then some (6, 4)
      else if 2 / 1066000000 ≤ tck then some (10, 6)
      else if 2 / 1600000000 ≤ tck then some (14, 8)
      else if 2 / 2132000000 ≤ tck then some (20, 10)
      else if 2 / 2666000000 ≤ tck then some (24, 12)
      else if 2 / 3200000000 ≤ tck then some (28, 14)
      else if 2 / 3732000000 ≤ tck then some (32, 16)
      else if 2 / 4266000000 ≤ tck then some (36, 18)
      else none := by
  simp only [get_cl_cw, f_to_cl_cwl, List.find?]
  split_ifs with h1 h2 h3 h4 h5 h6 h7 h8 <;>
    simp only [*, decide_True, decide_False, Option.map_some,
      Option.map_none] <;> rfl

lemma lpddr4_phy_init_resolved_ne_unsupported (cl cwl : ℕ)
    (ser des : Latency) :
    lpddr4_phy_init_resolved cl cwl ser des ≠ .error .UnsupportedTiming := by
  simp only [lpddr4_phy_init_resolved]
  split_ifs <;> simp

lemma lpddr4_phy_init_of_none (freq : ℚ) (ser des : Latency)
    (h : get_cl_cw (1 / (8 * freq)) = none) :
    lpddr4_phy_init freq ser des = .error .UnsupportedTiming := by
  unfold lpddr4_phy_init
  rw [h]

lemma lpddr4_phy_init_of_some (freq : ℚ) (ser des : Latency) (cl cwl : ℕ)
    (h : get_cl_cw (1 / (8 * freq)) = some (cl, cwl)) :
    lpddr4_phy_init freq ser des = lpddr4_phy_init_resolved cl cwl ser des := by
  unfold lpddr4_phy_init
  rw [h]

/-- C3: the Timing Resolver returns the (CL, CWL) pair of the first
entry, in ascending frequency order, whose period threshold 2/f is
reached by the requested period: at an exact threshold that entry itself
is returned; for a period that satisfies entry i but none of the
earlier (smaller period) thresholds, entry i is returned; when no
threshold is satisfied the lookup yields none and construction aborts
with UnsupportedTiming. -/
theorem timing_resolver_first_match :
    (∀ i : Fin 8, get_cl_cw (2 / (table_entry i).1) = some (table_entry i).2) ∧
    (∀ (tck : ℚ) (i : Fin 8),
      2 / (table_entry i).1 ≤ tck →
      (∀ j : Fin 8, j < i → ¬(2 / (table_entry j).1 ≤ tck)) →
      get_cl_cw tck = some (table_entry i).2) ∧
    (∀ tck : ℚ,
      (∀ i : Fin 8, ¬(2 / (table_entry i).1 ≤ tck)) →
      get_cl_cw tck = none) ∧
    (∀ (freq : ℚ) (ser des : Latency),
      lpddr4_phy_init freq ser des = .error .UnsupportedTiming ↔
        get_cl_cw (1 / (8 * freq)) = none) := by
  refine ⟨?_, ?_, ?_, ?_⟩
  · intro i
    fin_cases i
    · show get_cl_cw (2 / 532000000) = some (6, 4)
      rw [get_cl_cw_ite]
      norm_num
    · show get_cl_cw (2 / 1066000000) = some (10, 6)
      rw [get_cl_cw_ite]
      norm_num
    · show get_cl_cw (2 / 1600000000) = some (14, 8)
      rw [get_cl_cw_ite]
      norm_num
    · show get_cl_cw (2 / 2132000000) = some (20, 10)
      rw [get_cl_cw_ite]
      norm_num
    · show get_cl_cw (2 / 2666000000) = some (24, 12)
      rw [get_cl_cw_ite]
      norm_num
    · show get_cl_cw (2 / 3200000000) = some (28, 14)
      rw [get_cl_cw_ite]
      norm_num
    · show get_cl_cw (2 / 3732000000) = some (32, 16)
      rw [get_cl_cw_ite]
      norm_num
    · show get_cl_cw (2 / 4266000000) = some (36, 18)
      rw [get_cl_cw_ite]
      norm_num
  · intro tck i hsat hlt
    fin_cases i
    · rw [get_cl_cw_ite,
        if_pos (show (2 : ℚ) / 532000000 ≤ tck from hsat)]
      rfl
    · rw [get_cl_cw_ite,
        if_neg (show ¬((2 : ℚ) / 532000000 ≤ tck) from hlt 0 (by decide)),
        if_pos (show (2 : ℚ) / 1066000000 ≤ tck from hsat)]
      rfl
    · rw [get_cl_cw_ite,
        if_neg (show ¬((2 : ℚ) / 532000000 ≤ tck) from hlt 0 (by decide)),
        if_neg (show ¬((2 : ℚ) / 1066000000 ≤ tck) from hlt 1 (by decide)),
        if_pos (show (2 : ℚ) / 1600000000 ≤ tck from hsat)]
      rfl
    · rw [get_cl_cw_ite,
        if_neg (show ¬((2 : ℚ) / 532000000 ≤ tck) from hlt 0 (by decide)),
        if_neg (show ¬((2 : ℚ) / 1066000000 ≤ tck) from hlt 1 (by decide)),
        if_neg (show ¬((2 : ℚ) / 1600000000 ≤ tck) from hlt 2 (by decide)),
        if_pos (show (2 : ℚ) / 2132000000 ≤ tck from hsat)]
      rfl
    · rw [get_cl_cw_ite,
        if_neg (show ¬((2 : ℚ) / 532000000 ≤ tck) from hlt 0 (by decide)),
        if_neg (show ¬((2 : ℚ) / 1066000000 ≤ tck) from hlt 1 (by decide)),
        if_neg (show ¬((2 : ℚ) / 1600000000 ≤ tck) from hlt 2 (by decide)),
        if_neg (show ¬((2 : ℚ) / 2132000000 ≤ tck) from hlt 3 (by decide)),
        if_pos (show (2 : ℚ) / 2666000000 ≤ tck from hsat)]
      rfl
    · rw [get_cl_cw_ite,
        if_neg (show ¬((2 : ℚ) / 532000000 ≤ tck) from hlt 0 (by decide)),
        if_neg (show ¬((2 : ℚ) / 1066000000 ≤ tck) from hlt 1 (by decide)),
        if_neg (show ¬((2 : ℚ) / 1600000000 ≤ tck) from hlt 2 (by decide)),
        if_neg (show ¬((2 : ℚ) / 2132000000 ≤ tck) from hlt 3 (by decide)),
        if_neg (show ¬((2 : ℚ) / 2666000000 ≤ tck) from hlt 4 (by decide)),
        if_pos (show (2 : ℚ) / 3200000000 ≤ tck from hsat)]
      rfl
    · rw [get_cl_cw_ite,
        if_neg (show ¬((2 : ℚ) / 532000000 ≤ tck) from hlt 0 (by decide)),
        if_neg (show ¬((2 : ℚ) / 1066000000 ≤ tck) from hlt 1 (by decide)),
        if_neg (show ¬((2 : ℚ) / 1600000000 ≤ tck) from hlt 2 (by decide)),
        if_neg (show ¬((2 : ℚ) / 2132000000 ≤ tck) from hlt 3 (by decide)),
        if_neg (show ¬((2 : ℚ) / 2666000000 ≤ tck) from hlt 4 (by decide)),
        if_neg (show ¬((2 : ℚ) / 3200000000 ≤ tck) from hlt 5 (by decide)),
        if_pos (show (2 : ℚ) / 3732000000 ≤ tck from hsat)]
      rfl
    · rw [get_cl_cw_ite,
        if_neg (show ¬((2 : ℚ) / 532000000 ≤ tck) from hlt 0 (by decide)),
        if_neg (show ¬((2 : ℚ) / 1066000000 ≤ tck) from hlt 1 (by decide)),
        if_neg (show ¬((2 : ℚ) / 1600000000 ≤ tck) from hlt 2 (by decide)),
        if_neg (show ¬((2 : ℚ) / 2132000000 ≤ tck) from hlt 3 (by decide)),
        if_neg (show ¬((2 : ℚ) / 2666000000 ≤ tck) from hlt 4 (by decide)),
        if_neg (show ¬((2 : ℚ) / 3200000000 ≤ tck) from hlt 5 (by decide)),
        if_neg (show ¬((2 : ℚ) / 3732000000 ≤ tck) from hlt 6 (by decide)),
        if_pos (show (2 : ℚ) / 4266000000 ≤ tck from hsat)]
      rfl
  · intro tck h
    rw [get_cl_cw_ite,
      if_neg (show ¬((2 : ℚ) / 532000000 ≤ tck) from h 0),
      if_neg (show ¬((2 : ℚ) / 1066000000 ≤ tck) from h 1),
      if_neg (show ¬((2 : ℚ) / 1600000000 ≤ tck) from h 2),
      if_neg (show ¬((2 : ℚ) / 2132000000 ≤ tck) from h 3),
      if_neg (show ¬((2 : ℚ) / 2666000000 ≤ tck) from h 4),
      if_neg (show ¬((2 : ℚ) / 3200000000 ≤ tck) from h 5),
      if_neg (show ¬((2 : ℚ) / 3732000000 ≤ tck) from h 6),
      if_neg (show ¬((2 : ℚ) / 4266000000 ≤ tck) from h 7)]
  · intro freq ser des
    cases hq : get_cl_cw (1 / (8 * freq)) with
    | none =>
      rw [lpddr4_phy_init_of_none freq ser des hq]
      simp
    | some p =>
      obtain ⟨cl, cwl⟩ := p
      rw [lpddr4_phy_init_of_some freq ser des cl cwl hq]
      simp [lpddr4_phy_init_resolved_ne_unsupported cl cwl ser des]

/-- Witness for C3 at concrete periods: the period 1/800000000 meets the
1600 MHz entry threshold exactly (and no earlier entry threshold), and a
very small period matches no entry. -/
theorem timing_resolver_first_match_witness :
    get_cl_cw (1 / 800000000) = some (14, 8) ∧
    get_cl_cw (1 / 100000000000) = none := by
  constructor
  · have h := timing_resolver_first_match.2.1 (1 / 800000000) 2
      (show (2 : ℚ) / 1600000000 ≤ 1 / 800000000 by norm_num)
      (by
        intro j hj
        fin_cases j
        · exact show ¬((2 : ℚ) / 532000000 ≤ 1 / 800000000) by norm_num
        · exact show ¬((2 : ℚ) / 1066000000 ≤ 1 / 800000000) by norm_num
        · exact absurd hj (by decide)
        · exact absurd hj (by decide)
        · exact absurd hj (by decide)
        · exact absurd hj (by decide)
        · exact absurd hj (by decide)
        · exact absurd hj (by decide))
    exact h
  · apply timing_resolver_first_match.2.2.1
    intro i
    fin_cases i
    · exact show ¬((2 : ℚ) / 532000000 ≤ 1 / 100000000000) by norm_num
    · exact show ¬((2 : ℚ) / 1066000000 ≤ 1 / 100000000000) by norm_num
    · exact show ¬((2 : ℚ) / 1600000000 ≤ 1 / 100000000000) by norm_num
    · exact show ¬((2 : ℚ) / 2132000000 ≤ 1 / 100000000000) by norm_num
    · exact show ¬((2 : ℚ) / 2666000000 ≤ 1 / 100000000000) by norm_num
    · exact show ¬((2 : ℚ) / 3200000000 ≤ 1 / 100000000000) by norm_num
    · exact show ¬((2 : ℚ) / 3732000000 ≤ 1 / 100000000000) by norm_num
    · exact show ¬((2 : ℚ) / 4266000000 ≤ 1 / 100000000000) by norm_num

lemma updated_latency_props (phase sys_latency : ℤ) :
    0 ≤ (updated_latency phase sys_latency).1 ∧
    (updated_latency phase sys_latency).1 % 8 = phase % 8 ∧
    8 * (updated_latency phase sys_latency).2 -
      (updated_latency phase sys_latency).1 = 8 * sys_latency - phase ∧
    (0 ≤ phase → updated_latency phase sys_latency = (phase, sys_latency)) ∧
    (phase < 8 → (updated_latency phase sys_latency).1 < 8) := by
  induction phase, sys_latency using updated_latency.induct with
  | case1 phase sys_latency h ih =>
    rw [updated_latency, if_pos h]
    obtain ⟨ih1, ih2, ih3, ih4, ih5⟩ := ih
    exact ⟨ih1, by omega, by omega, fun hc => absurd hc (by omega),
      fun _ => ih5 (by omega)⟩
  | case2 phase sys_latency h =>
    rw [updated_latency, if_neg h]
    refine ⟨?_, ?_, ?_, ?_, ?_⟩ <;> simp <;> omega

lemma lpddr4_phy_init_resolved_ok_inv (cl cwl : ℕ) (ser des : Latency)
    (s : PhySettingsM)
    (h : lpddr4_phy_init_resolved cl cwl ser des = .ok s) :
    s = ⟨cl, cwl,
      (updated_latency (get_sys_phase 8 (get_sys_latency 8 cl)
        (cl + cmd_latency + ser.sys8x + des.sys8x)) (get_sys_latency 8 cl)).2,
      (updated_latency (get_sys_phase 8 (get_sys_latency 8 cwl)
        (cwl + cmd_latency)) (get_sys_latency 8 cwl)).2,
      (updated_latency (get_sys_phase 8 (get_sys_latency 8 cl)
        (cl + cmd_latency + ser.sys8x + des.sys8x)) (get_sys_latency 8 cl)).1,
      (updated_latency (get_sys_phase 8 (get_sys_latency 8 cwl)
        (cwl + cmd_latency)) (get_sys_latency 8 cwl)).1,
      ca_latency + ser.sys +
        (updated_latency (get_sys_phase 8 (get_sys_latency 8 cl)
          (cl + cmd_latency + ser.sys8x + des.sys8x))
          (get_sys_latency 8 cl)).2 + (des.sys + bitslip_cycles),
      (updated_latency (get_sys_phase 8 (get_sys_latency 8 cwl)
        (cwl + cmd_latency)) (get_sys_latency 8 cwl)).2,
      (updated_latency (get_sys_phase 8 (get_sys_latency 8 cwl)
        (cwl + cmd_latency)) (get_sys_latency 8 cwl)).2 - 1⟩ ∧
    ¬((updated_latency (get_sys_phase 8 (get_sys_latency 8 cwl)
        (cwl + cmd_latency)) (get_sys_latency 8 cwl)).2 - 1 < 0) := by
  simp only [lpddr4_phy_init_resolved] at h
  split_ifs at h with hneg
  injection h with h2
  exact ⟨h2.symm, hneg⟩

lemma lpddr4_phy_init_resolved_error_iff (cl cwl : ℕ) (ser des : Latency) :
    lpddr4_phy_init_resolved cl cwl ser des = .error .NegativeTapIndex ↔
      (updated_latency (get_sys_phase 8 (get_sys_latency 8 cwl)
        (cwl + cmd_latency)) (get_sys_latency 8 cwl)).2 - 1 < 0 := by
  simp only [lpddr4_phy_init_resolved]
  split_ifs with hneg <;> simp [hneg]

/-- The settings produced by the modelled construction at a 100 MHz sys
clock with zero serializer and deserializer latencies. -/
def settings100 : PhySettingsM := ⟨14, 8, 3, 2, 6, 4, 5, 2, 1⟩

lemma lpddr4_phy_init_at_100MHz :
    lpddr4_phy_init 100000000 (Latency.make 0 0) (Latency.make 0 0) =
      .ok settings100 := by
  have h0 : get_cl_cw (1 / (8 * 100000000)) = some (14, 8) := by
    rw [get_cl_cw_ite]
    norm_num
  rw [lpddr4_phy_init_of_some _ _ _ _ _ h0]
  have h1 : updated_latency (-4) 1 = (4, 2) := by
    rw [updated_latency]
    norm_num
    rw [updated_latency]
    norm_num
  have h2 : updated_latency (-2) 2 = (6, 3) := by
    rw [updated_latency]
    norm_num
    rw [updated_latency]
    norm_num
  have e1 : get_sys_phase 8 (get_sys_latency 8 8) (8 + cmd_latency) = -4 := by
    norm_num [get_sys_phase, get_sys_latency, cmd_latency]
  have e2 : get_sys_phase 8 (get_sys_latency 8 14)
      (14 + cmd_latency + (Latency.make 0 0).sys8x +
        (Latency.make 0 0).sys8x) = -2 := by
    norm_num [get_sys_phase, get_sys_latency, cmd_latency, Latency.make]
  have e3 : get_sys_latency 8 8 = 1 := by norm_num [get_sys_latency]
  have e4 : get_sys_latency 8 14 = 2 := by norm_num [get_sys_latency]
  simp only [lpddr4_phy_init_resolved, e1, e2]
  simp only [e3, e4, Nat.cast_one, Nat.cast_ofNat, h1, h2]
  norm_num [Latency.make, ca_latency, bitslip_cycles, settings100]

/-- C4 (amended): the phase-normalization loop terminates with a
non-negative phase congruent to the input phase modulo 8, preserving the
effective total latency 8 * sys_latency - phase (each iteration adds 8
to the phase and one borrowed cycle, 8 ticks, to the whole-cycle
latency), leaving non-negative inputs unchanged; consequently the
resolved rdphase and wrphase stored in the settings lie in [0, 8). -/
theorem phase_normalization :
    (∀ phase sys_latency : ℤ,
      0 ≤ (updated_latency phase sys_latency).1 ∧
      (updated_latency phase sys_latency).1 % 8 = phase % 8 ∧
      8 * (updated_latency phase sys_latency).2 -
        (updated_latency phase sys_latency).1 = 8 * sys_latency - phase ∧
      (0 ≤ phase → updated_latency phase sys_latency = (phase, sys_latency))) ∧
    (∀ (freq : ℚ) (ser des : Latency) (s : PhySettingsM),
      lpddr4_phy_init freq ser des = .ok s →
      0 ≤ s.rdphase ∧ s.rdphase < 8 ∧ 0 ≤ s.wrphase ∧ s.wrphase < 8) := by
  constructor
  · intro phase sys_latency
    obtain ⟨h1, h2, h3, h4, h5⟩ := updated_latency_props phase sys_latency
    exact ⟨h1, h2, h3, h4⟩
  · intro freq ser des s h
    cases hq : get_cl_cw (1 / (8 * freq)) with
    | none =>
      rw [lpddr4_phy_init_of_none freq ser des hq] at h
      exact absurd h (by simp)
    | some p =>
      obtain ⟨cl, cwl⟩ := p
      rw [lpddr4_phy_init_of_some freq ser des cl cwl hq] at h
      obtain ⟨hs, hcond⟩ := lpddr4_phy_init_resolved_ok_inv cl cwl ser des s h
      subst hs
      obtain ⟨r1, r2, r3, r4, r5⟩ := updated_latency_props
        (get_sys_phase 8 (get_sys_latency 8 cl)
          (cl + cmd_latency + ser.sys8x + des.sys8x)) (get_sys_latency 8 cl)
      obtain ⟨w1, w2, w3, w4, w5⟩ := updated_latency_props
        (get_sys_phase 8 (get_sys_latency 8 cwl) (cwl + cmd_latency))
        (get_sys_latency 8 cwl)
      have hrd : get_sys_phase 8 (get_sys_latency 8 cl)
          (cl + cmd_latency + ser.sys8x + des.sys8x) < 8 := by
        simp only [get_sys_phase, get_sys_latency, cmd_latency]
        omega
      have hwr : get_sys_phase 8 (get_sys_latency 8 cwl)
          (cwl + cmd_latency) < 8 := by
        simp only [get_sys_phase, get_sys_latency, cmd_latency]
        omega
      exact ⟨r1, r5 hrd, w1, w5 hwr⟩

/-- Counterexample for C4 as stated: at phase -4 with one whole cycle of
latency the loop returns phase 4 with 2 cycles, and the claimed
invariant phase + 8 * sys_latency is not preserved (4 + 16 = 20 while
-4 + 8 = 4); the loop preserves 8 * sys_latency - phase instead. -/
theorem phase_normalization_counterexample :
    updated_latency (-4) 1 = (4, 2) ∧
    ¬((4 : ℤ) + 8 * 2 = -4 + 8 * 1) := by
  constructor
  · rw [updated_latency]
    norm_num
    rw [updated_latency]
    norm_num
  · norm_num

/-- Witness for C4 at concrete inputs: a non-negative phase is left
unchanged, and the 100 MHz configuration resolves rdphase = 6 and
wrphase = 4, both in [0, 8). -/
theorem phase_normalization_witness :
    updated_latency 5 3 = (5, 3) ∧
    (0 ≤ settings100.rdphase ∧ settings100.rdphase < 8 ∧
     0 ≤ settings100.wrphase ∧ settings100.wrphase < 8) :=
  ⟨(phase_normalization.1 5 3).2.2.2 (by norm_num),
   phase_normalization.2 100000000 (Latency.make 0 0) (Latency.make 0 0)
     settings100 lpddr4_phy_init_at_100MHz⟩

/-- C5: for every configuration accepted at construction, the total read
latency equals the fixed command-to-bus delay ca_latency = 1 plus the
serializer whole-cycle latency plus the resolved (normalized) CL
whole-cycle latency plus the deserializer whole-cycle latency plus the
fixed 1-cycle bitslip deskew latency, and the total write latency equals
the resolved (normalized) CWL whole-cycle latency. -/
theorem latency_totals (freq : ℚ) (ser des : Latency) (s : PhySettingsM)
    (h : lpddr4_phy_init freq ser des = .ok s) :
    s.read_latency = ca_latency + ser.sys + s.cl_sys_latency + des.sys +
      bitslip_cycles ∧
    s.cl_sys_latency = (updated_latency (get_sys_phase 8
      (get_sys_latency 8 s.cl)
      (s.cl + cmd_latency + ser.sys8x + des.sys8x))
      (get_sys_latency 8 s.cl)).2 ∧
    s.write_latency = s.cwl_sys_latency ∧
    s.cwl_sys_latency = (updated_latency (get_sys_phase 8
      (get_sys_latency 8 s.cwl) (s.cwl + cmd_latency))
      (get_sys_latency 8 s.cwl)).2 := by
  cases hq : get_cl_cw (1 / (8 * freq)) with
  | none =>
    rw [lpddr4_phy_init_of_none freq ser des hq] at h
    exact absurd h (by simp)
  | some p =>
    obtain ⟨cl, cwl⟩ := p
    rw [lpddr4_phy_init_of_some freq ser des cl cwl hq] at h
    obtain ⟨hs, hcond⟩ := lpddr4_phy_init_resolved_ok_inv cl cwl ser des s h
    subst hs
    refine ⟨?_, rfl, rfl, rfl⟩
    dsimp only
    omega

/-- Witness for C5: the 100 MHz configuration with zero ser/des latency
has read latency 5 = 1 + 0 + 3 + 0 + 1 and write latency 2 = CWL
whole-cycle latency. -/
theorem latency_totals_witness :
    settings100.read_latency = ca_latency + (Latency.make 0 0).sys +
      settings100.cl_sys_latency + (Latency.make 0 0).sys +
      bitslip_cycles ∧
    settings100.cl_sys_latency = (updated_latency (get_sys_phase 8
      (get_sys_latency 8 settings100.cl)
      (settings100.cl + cmd_latency + (Latency.make 0 0).sys8x +
        (Latency.make 0 0).sys8x))
      (get_sys_latency 8 settings100.cl)).2 ∧
    settings100.write_latency = settings100.cwl_sys_latency ∧
    settings100.cwl_sys_latency = (updated_latency (get_sys_phase 8
      (get_sys_latency 8 settings100.cwl)
      (settings100.cwl + cmd_latency))
      (get_sys_latency 8 settings100.cwl)).2 :=
  latency_totals 100000000 (Latency.make 0 0) (Latency.make 0 0) settings100
    lpddr4_phy_init_at_100MHz

/-- C8: construction fails with NegativeTapIndex exactly when the
timing lookup succeeds but the computed write tap index
wrtap = (resolved CWL whole-cycle latency) - 1 is negative, and every
successful construction stores a non-negative wrtap. -/
theorem negative_tap_index_check :
    (∀ (freq : ℚ) (ser des : Latency),
      lpddr4_phy_init freq ser des = .error .NegativeTapIndex ↔
        ∃ cl cwl : ℕ, get_cl_cw (1 / (8 * freq)) = some (cl, cwl) ∧
          (updated_latency (get_sys_phase 8 (get_sys_latency 8 cwl)
            (cwl + cmd_latency)) (get_sys_latency 8 cwl)).2 - 1 < 0) ∧
    (∀ (freq : ℚ) (ser des : Latency) (s : PhySettingsM),
      lpddr4_phy_init freq ser des = .ok s → 0 ≤ s.wrtap) := by
  constructor
  · intro freq ser des
    cases hq : get_cl_cw (1 / (8 * freq)) with
    | none =>
      rw [lpddr4_phy_init_of_none freq ser des hq]
      simp
    | some p =>
      obtain ⟨cl, cwl⟩ := p
      rw [lpddr4_phy_init_of_some freq ser des cl cwl hq,
        lpddr4_phy_init_resolved_error_iff]
      constructor
      · intro hneg
        exact ⟨cl, cwl, rfl, hneg⟩
      · rintro ⟨c1, c2, hsome, hneg⟩
        obtain ⟨rfl, rfl⟩ : cl = c1 ∧ cwl = c2 := by
          injection hsome with h2
          exact ⟨congrArg Prod.fst h2, congrArg Prod.snd h2⟩
        exact hneg
  · intro freq ser des s h
    cases hq : get_cl_cw (1 / (8 * freq)) with
    | none =>
      rw [lpddr4_phy_init_of_none freq ser des hq] at h
      exact absurd h (by simp)
    | some p =>
      obtain ⟨cl, cwl⟩ := p
      rw [lpddr4_phy_init_of_some freq ser des cl cwl hq] at h
      obtain ⟨hs, hcond⟩ := lpddr4_phy_init_resolved_ok_inv cl cwl ser des s h
      subst hs
      simp only [PhySettingsM.wrtap]
      omega

/-- Witness for C8: the 100 MHz configuration constructs successfully
with wrtap = 1, which is non-negative. -/
theorem negative_tap_index_check_witness : 0 ≤ settings100.wrtap :=
  negative_tap_index_check.2 100000000 (Latency.make 0 0) (Latency.make 0 0)
    settings100 lpddr4_phy_init_at_100MHz

/-- An adapter validity pattern that is active during exactly one sys
cycle c, with the set of valid phases given by mem. -/
def singleCycle (c : ℕ) (mem : ℕ → Bool) : ℕ → ℕ → Bool :=
  fun cc p => decide (cc = c) && mem p

lemma valids_hist_false_of_raw (valid : ℕ → ℕ → Bool) (c k : ℕ)
    (h : valids_r valid c k = false) : valids_hist valid c k = false := by
  rcases k with _ | _ | _ | k
  · simp [valids_hist, h]
  · simp [valids_hist, h]
  · simp [valids_hist, h]
  · simp [valids_hist, h]

lemma valids_hist_succ3 (valid : ℕ → ℕ → Bool) (c m : ℕ) :
    valids_hist valid c (m + 3) = (valids_r valid c (m + 3) &&
      !(valids_hist valid c (m + 2) || valids_hist valid c (m + 1) ||
        valids_hist valid c m)) := rfl

lemma valids_r_singleCycle_next (c : ℕ) (mem : ℕ → Bool) (k : ℕ) :
    valids_r (singleCycle c mem) (c + 1) k =
      if 8 ≤ k ∧ k < 16 then mem (k - 8) else false := by
  simp only [valids_r, singleCycle]
  by_cases hk8 : k < 8
  · rw [if_pos hk8, if_neg (show ¬(8 ≤ k ∧ k < 16) from by omega)]
    by_cases hc : 2 ≤ c + 1
    · rw [if_pos hc, decide_eq_false (show ¬(c + 1 - 2 = c) from by omega),
        Bool.false_and]
    · rw [if_neg hc]
  · by_cases hk16 : k < 16
    · rw [if_neg hk8, if_pos hk16, if_pos (show 1 ≤ c + 1 from by omega),
        if_pos (show 8 ≤ k ∧ k < 16 from by omega),
        show c + 1 - 1 = c from rfl]
      simp
    · rw [if_neg hk8, if_neg hk16,
        if_neg (show ¬(8 ≤ k ∧ k < 16) from by omega)]

lemma valids_r_singleCycle_next2 (c : ℕ) (mem : ℕ → Bool) (k : ℕ) :
    valids_r (singleCycle c mem) (c + 2) k =
      if k < 8 then mem k else false := by
  simp only [valids_r, singleCycle]
  by_cases hk8 : k < 8
  · rw [if_pos hk8, if_pos hk8, if_pos (show 2 ≤ c + 2 from by omega),
      show c + 2 - 2 = c from rfl]
    simp
  · by_cases hk16 : k < 16
    · rw [if_neg hk8, if_neg hk8, if_pos hk16,
        if_pos (show 1 ≤ c + 2 from by omega),
        decide_eq_false (show ¬(c + 2 - 1 = c) from by omega),
        Bool.false_and]
    · rw [if_neg hk8, if_neg hk8, if_neg hk16]

lemma hist_next_false (c : ℕ) (mem : ℕ → Bool) (k : ℕ)
    (h : 8 ≤ k → k < 16 → mem (k - 8) = false) :
    valids_hist (singleCycle c mem) (c + 1) k = false := by
  apply valids_hist_false_of_raw
  rw [valids_r_singleCycle_next]
  split_ifs with hk
  · exact h hk.1 hk.2
  · rfl

lemma hist_next2_false (c : ℕ) (mem : ℕ → Bool) (k : ℕ)
    (h : k < 8 → mem k = false) :
    valids_hist (singleCycle c mem) (c + 2) k = false := by
  apply valids_hist_false_of_raw
  rw [valids_r_singleCycle_next2]
  split_ifs with hk
  · exact h hk
  · rfl

/-- C1 (amended): overlap suppression and non-overlap transparency of
the command arbiter.  Part 1: when the command of phase q overlaps a
still-valid (unsuppressed in the masked history) command of an earlier
phase p of the same cycle (p < q at most 3 slots earlier), the whole
contribution of phase q is zeroed throughout its emission cycle output
word, for the chip-select lane and each ca bit lane alike (the payload
argument ranges over all of them); the portion of a suppressed command
that spills past the cycle boundary (phases 5 to 7) is not zeroed by
this mask, as the counterexample shows.  Part 2: for two isolated
commands on phases p and q at least 4 slots apart, with adapters quiet
when invalid and commands at most 4 ticks long, the ORed lane output is
at every tick exactly the OR of the two rotated payloads, so both
contributions appear unmodified except for the per-phase rotation. -/
theorem cmd_arbiter_masking :
    (∀ (valid : ℕ → ℕ → Bool) (payload : ℕ → ℕ → Bool) (c p q : ℕ),
      p < q → q ≤ p + 3 → q < 8 →
      valids_hist valid (c + 1) (8 + p) = true →
      ∀ t, cmd_contrib valid payload q (c + 1) t = false) ∧
    (∀ (c p q : ℕ) (mem : ℕ → Bool) (payload : ℕ → ℕ → ℕ → Bool),
      p + 4 ≤ q → q < 8 →
      (∀ x, mem x = decide (x = p ∨ x = q)) →
      (∀ r cc t, singleCycle c mem cc r = false → payload r cc t = false) →
      (∀ r cc t, 4 ≤ t → payload r cc t = false) →
      ∀ cc t, cmd_out (singleCycle c mem) payload cc t =
        (constBitSlip p (payload p) cc t ||
          constBitSlip q (payload q) cc t)) := by
  constructor
  · intro valid payload c p q hpq hq3 hq8 hhist t
    have hall : allowed valid (c + 1) q = false := by
      rw [allowed]
      have hcase : 8 + p = 5 + q ∨ 8 + p = 6 + q ∨ 8 + p = 7 + q := by omega
      rcases hcase with h | h | h <;> rw [← h] <;> simp [hhist]
    rw [cmd_contrib, hall, Bool.and_false]
  · intro c p q mem payload hpq hq8 hmem hpay0 hpay4
    have hp3 : p ≤ 3 := by omega
    have hpay_cyc : ∀ r cc t, cc ≠ c → payload r cc t = false := by
      intro r cc t hcc
      apply hpay0
      show (decide (cc = c) && mem r) = false
      rw [decide_eq_false hcc, Bool.false_and]
    have hpay_other : ∀ r, r ≠ p → r ≠ q → ∀ cc t, payload r cc t = false := by
      intro r hrp hrq cc t
      apply hpay0
      show (decide (cc = c) && mem r) = false
      rw [hmem, decide_eq_false (show ¬(r = p ∨ r = q) from by tauto),
        Bool.and_false]
    have hslip_p_ne : ∀ cc t, cc ≠ c + 1 →
        constBitSlip p (payload p) cc t = false := by
      intro cc t hcc
      rw [constBitSlip]
      split_ifs with h1 h2 h3
      · exact hpay_cyc p (cc - 1) (t - p) (by omega)
      · rfl
      · exact hpay4 p (cc - 2) (t + 8 - p) (by omega)
      · rfl
    have hslip_q_ne : ∀ cc t, cc ≠ c + 1 → cc ≠ c + 2 →
        constBitSlip q (payload q) cc t = false := by
      intro cc t h1 h2
      rw [constBitSlip]
      split_ifs with ha hb hc2
      · exact hpay_cyc q (cc - 1) (t - q) (by omega)
      · rfl
      · exact hpay_cyc q (cc - 2) (t + 8 - q) (by omega)
      · rfl
    have hallow_p : allowed (singleCycle c mem) (c + 1) p = true := by
      have hw : ∀ w, 5 + p ≤ w → w < 8 + p →
          valids_hist (singleCycle c mem) (c + 1) w = false := by
        intro w h1 h2
        apply hist_next_false
        intro h8 h16
        rw [hmem]
        simp only [decide_eq_false_iff_not]
        omega
      rw [allowed, hw (5 + p) (by omega) (by omega),
        hw (6 + p) (by omega) (by omega), hw (7 + p) (by omega) (by omega)]
      rfl
    have hallow_q1 : allowed (singleCycle c mem) (c + 1) q = true := by
      have hw : ∀ w, 5 + q ≤ w → w < 8 + q →
          valids_hist (singleCycle c mem) (c + 1) w = false := by
        intro w h1 h2
        apply hist_next_false
        intro h8 h16
        rw [hmem]
        simp only [decide_eq_false_iff_not]
        omega
      rw [allowed, hw (5 + q) (by omega) (by omega),
        hw (6 + q) (by omega) (by omega), hw (7 + q) (by omega) (by omega)]
      rfl
    have hallow_q2 : allowed (singleCycle c mem) (c + 2) q = true := by
      have hw : ∀ w, 5 + q ≤ w →
          valids_hist (singleCycle c mem) (c + 2) w = false := by
        intro w h1
        apply hist_next2_false
        intro hk
        exact absurd hk (by omega)
      rw [allowed, hw (5 + q) (by omega), hw (6 + q) (by omega),
        hw (7 + q) (by omega)]
      rfl
    intro cc t
    have hdir1 : cmd_out (singleCycle c mem) payload cc t = true →
        (constBitSlip p (payload p) cc t ||
          constBitSlip q (payload q) cc t) = true := by
      intro hout
      simp only [cmd_out, List.any_eq_true] at hout
      obtain ⟨r, hr, hcon⟩ := hout
      rw [cmd_contrib, Bool.and_eq_true] at hcon
      have hslip := hcon.1
      have hrpq : r = p ∨ r = q := by
        by_contra hc2
        push_neg at hc2
        have hz := hpay_other r hc2.1 hc2.2
        rw [constBitSlip] at hslip
        split_ifs at hslip <;> simp [hz] at hslip
      rcases hrpq with rfl | rfl
      · rw [hslip, Bool.true_or]
      · rw [hslip, Bool.or_true]
    have hdir2 : (constBitSlip p (payload p) cc t ||
        constBitSlip q (payload q) cc t) = true →
        cmd_out (singleCycle c mem) payload cc t = true := by
      intro hor
      rw [Bool.or_eq_true] at hor
      rcases hor with hp | hq
      · have hcc : cc = c + 1 := by
          by_contra hcc
          rw [hslip_p_ne cc t hcc] at hp
          exact absurd hp (by simp)
        subst hcc
        simp only [cmd_out, List.any_eq_true]
        refine ⟨p, List.mem_range.mpr (by omega), ?_⟩
        rw [cmd_contrib, hp, hallow_p]
        rfl
      · have hcc : cc = c + 1 ∨ cc = c + 2 := by
          by_contra hcc
          push_neg at hcc
          rw [hslip_q_ne cc t hcc.1 hcc.2] at hq
          exact absurd hq (by simp)
        rcases hcc with rfl | rfl
        · simp only [cmd_out, List.any_eq_true]
          refine ⟨q, List.mem_range.mpr (by omega), ?_⟩
          rw [cmd_contrib, hq, hallow_q1]
          rfl
        · simp only [cmd_out, List.any_eq_true]
          refine ⟨q, List.mem_range.mpr (by omega), ?_⟩
          rw [cmd_contrib, hq, hallow_q2]
          rfl
    cases hlhs : cmd_out (singleCycle c mem) payload cc t with
    | false =>
      cases hrhs : (constBitSlip p (payload p) cc t ||
          constBitSlip q (payload q) cc t) with
      | false => rfl
      | true =>
        have := hdir2 hrhs
        rw [this] at hlhs
        exact absurd hlhs (by simp)
    | true => exact (hdir1 hlhs).symm

/-- Counterexample for C1 as stated: phases 5 and 6 issue overlapping
4-tick commands in sys cycle 0 (phase 6 starts within 3 ticks of the
still-valid phase 5 command, whose masked history bit 13 survives), so
the claim requires phase 6's contribution to be fully zeroed for the
whole overlap; it is indeed zeroed during emission cycle 1 (allowed is
false), but the last tick of phase 6's command spills into cycle 2
tick 0, which still lies inside the overlap with phase 5's command
(global fast ticks 13-16 versus 14-17), and there its contribution is
1, not 0. -/
theorem cmd_arbiter_counterexample :
    exValid56 0 5 = true ∧ exValid56 0 6 = true ∧
    valids_hist exValid56 1 13 = true ∧
    allowed exValid56 1 6 = false ∧
    cmd_contrib exValid56 exPayload0 6 2 0 = true := by decide

/-- Witness for C1 at a concrete input: with the overlapping phase pair
5 and 6 of cycle 0, phase 6's contribution at emission cycle 1 tick 6 is
zeroed. -/
theorem cmd_arbiter_masking_witness :
    cmd_contrib exValid56 exPayload0 6 1 6 = false :=
  cmd_arbiter_masking.1 exValid56 exPayload0 0 5 6 (by decide) (by decide)
    (by decide) (by decide) 6

/-- C9: the arbiter lookback uses the masked history, not the raw one.
For three commands in one cycle on phases a, b and cp, where b overlaps
a (and is suppressed) and cp falls within 3 slots of b but more than 3
slots after a, the masked history keeps a, drops b, and phase cp remains
allowed: suppression never cascades through a suppressed command, and
cp's contribution passes through unmasked. -/
theorem arbiter_masked_history (a b cp c : ℕ) (mem : ℕ → Bool)
    (payload : ℕ → ℕ → Bool)
    (hab : a < b) (hb3 : b ≤ a + 3) (hbc : b < cp) (hc3 : cp ≤ b + 3)
    (hac : a + 4 ≤ cp) (hcp8 : cp < 8)
    (hmem : ∀ x, mem x = decide (x = a ∨ x = b ∨ x = cp)) :
    valids_hist (singleCycle c mem) (c + 1) (8 + a) = true ∧
    valids_hist (singleCycle c mem) (c + 1) (8 + b) = false ∧
    allowed (singleCycle c mem) (c + 1) cp = true ∧
    (∀ t, cmd_contrib (singleCycle c mem) payload cp (c + 1) t =
      constBitSlip cp payload (c + 1) t) := by
  have hwin_a : ∀ w, 5 + a ≤ w → w < 8 + a →
      valids_hist (singleCycle c mem) (c + 1) w = false := by
    intro w hw1 hw2
    apply hist_next_false
    intro h8 h16
    rw [hmem]
    simp only [decide_eq_false_iff_not]
    omega
  have ha_true : valids_hist (singleCycle c mem) (c + 1) (8 + a) = true := by
    rw [show 8 + a = (5 + a) + 3 from by omega, valids_hist_succ3,
      valids_r_singleCycle_next,
      if_pos (show 8 ≤ 5 + a + 3 ∧ 5 + a + 3 < 16 from by omega),
      show 5 + a + 3 - 8 = a from by omega, hmem,
      hwin_a (5 + a + 2) (by omega) (by omega),
      hwin_a (5 + a + 1) (by omega) (by omega),
      hwin_a (5 + a) (by omega) (by omega)]
    simp
  have hb_false : valids_hist (singleCycle c mem) (c + 1) (8 + b) = false := by
    rw [show 8 + b = (5 + b) + 3 from by omega, valids_hist_succ3]
    have hcase : b = a + 1 ∨ b = a + 2 ∨ b = a + 3 := by omega
    rcases hcase with rfl | rfl | rfl
    · rw [show 5 + (a + 1) + 2 = 8 + a from by omega, ha_true]
      simp
    · rw [show 5 + (a + 2) + 1 = 8 + a from by omega, ha_true]
      simp
    · rw [show 5 + (a + 3) = 8 + a from by omega, ha_true]
      simp
  have hwin_cp : ∀ w, 5 + cp ≤ w → w < 8 + cp → w ≠ 8 + b →
      valids_hist (singleCycle c mem) (c + 1) w = false := by
    intro w h1 h2 h3
    apply hist_next_false
    intro h8 h16
    rw [hmem]
    simp only [decide_eq_false_iff_not]
    omega
  have hallow_cp : allowed (singleCycle c mem) (c + 1) cp = true := by
    have h5 : valids_hist (singleCycle c mem) (c + 1) (5 + cp) = false := by
      by_cases hw : 5 + cp = 8 + b
      · rw [hw]
        exact hb_false
      · exact hwin_cp (5 + cp) (by omega) (by omega) hw
    have h6 : valids_hist (singleCycle c mem) (c + 1) (6 + cp) = false := by
      by_cases hw : 6 + cp = 8 + b
      · rw [hw]
        exact hb_false
      · exact hwin_cp (6 + cp) (by omega) (by omega) hw
    have h7 : valids_hist (singleCycle c mem) (c + 1) (7 + cp) = false := by
      by_cases hw : 7 + cp = 8 + b
      · rw [hw]
        exact hb_false
      · exact hwin_cp (7 + cp) (by omega) (by omega) hw
    rw [allowed, h5, h6, h7]
    rfl
  exact ⟨ha_true, hb_false, hallow_cp, fun t => by
    rw [cmd_contrib, hallow_cp, Bool.and_true]⟩

/-- Concrete three-command pattern for the C9 witness: phases 0, 2 and 5
of one cycle. -/
def exMem9 : ℕ → Bool := fun x => decide (x = 0 ∨ x = 2 ∨ x = 5)

/-- Witness for C9 at a concrete input: commands on phases 0, 2 and 5 of
cycle 0; phase 2 is suppressed by phase 0, and phase 5 (within 3 slots
of phase 2 but more than 3 after phase 0) stays allowed with its
contribution unmasked. -/
theorem arbiter_masked_history_witness :
    valids_hist (singleCycle 0 exMem9) 1 8 = true ∧
    valids_hist (singleCycle 0 exMem9) 1 10 = false ∧
    allowed (singleCycle 0 exMem9) 1 5 = true ∧
    cmd_contrib (singleCycle 0 exMem9) exPayload0 5 1 5 =
      constBitSlip 5 exPayload0 1 5 := by
  have h := arbiter_masked_history 0 2 5 0 exMem9 exPayload0 (by decide)
    (by decide) (by decide) (by decide) (by decide) (by decide)
    (fun x => rfl)
  exact ⟨h.1, h.2.1, h.2.2.1, h.2.2.2 5⟩
